import Mathlib

/-!
Verification of the batch-extraction orchestration core of web_surveyscriber.

The definitions below are shallow embeddings of the JavaScript functions in
`src/frontend/src/api/backend.js` and the `App` component in the unnamed
source file (`src/unnamed/part_000`).  Network interaction is made explicit:
the server is modelled as a function from the index of an HTTP request to the
response the server gives, and each embedded operation returns the list of
requests it issued together with its outcome, so that claims about how many
calls are made, in what order, and with what fields can be stated and proved.
-/

/-- Chunk size for large uploads; constant `CHUNK_SIZE` in backend.js line 5. -/
def CHUNK_SIZE : Nat := 100

/-- Response of the server to one `POST /upload/images` request: `response.ok`
is the 2xx flag of the fetch response, `batch_id` and `file_count` are the
fields of the parsed JSON body.  A JavaScript falsy (null/absent) `batch_id`
is represented by the empty string, matching the truthiness tests in the
source. -/
structure UploadResp where
  ok : Bool
  batch_id : String
  file_count : Nat
deriving DecidableEq

/-- One `POST /upload/images` request as issued by the client: the chunk of
files placed in the form data and the optional `batch_id` form field
(`none` when the JavaScript `batchId` variable is still falsy and the field
is not appended, backend.js lines 54-57). -/
structure UploadCall (α : Type) where
  files : List α
  batch_id : Option String
deriving DecidableEq

/-- Result value of an upload operation: `success b c` is the returned object
with `batch_id` field `b` and `file_count` field `c`; `failure m` is a thrown
`Error` with message `m`. -/
inductive UploadOutcome where
  | success (batch_id : String) (file_count : Nat)
  | failure (msg : String)
deriving DecidableEq

/-- Everything observable about one run of an upload operation: the upload
calls issued in order, the `onProgress` invocations in order (each carrying
the cumulative uploaded count and the fixed total), and the outcome. -/
structure UploadRun (α : Type) where
  calls : List (UploadCall α)
  progressEvents : List (Nat × Nat)
  outcome : UploadOutcome
deriving DecidableEq

/-- Fuel-driven worker for `chunksOf`; the fuel only bounds the recursion
depth and is irrelevant as soon as it is at least the length of the list
(`chunksOfGo_fuel` below). -/
def chunksOfGo (k : Nat) : Nat → List α → List (List α)
  | _, [] => []
  | 0, _ :: _ => []
  | fuel + 1, x :: rest => ((x :: rest).take k) :: chunksOfGo k fuel ((x :: rest).drop k)

/-- The consecutive chunks of at most `k` elements of a list: the slices
`xs.slice(i, i + k)` for `i = 0, k, 2k, ...` taken by the loop in
`uploadImagesChunked` (backend.js line 46-47). -/
def chunksOf (k : Nat) (xs : List α) : List (List α) :=
  chunksOfGo k xs.length xs

/-- Embedding of `uploadImages` (backend.js lines 10-27): a single
`POST /upload/images` call with the whole file list and no `batch_id` field.
The `onProgress` parameter of the source function is accepted but never
invoked there, hence the empty `progressEvents`.  `resp i` is the
server response to the `i`-th upload request of the enclosing run. -/
def uploadImages (resp : Nat → UploadResp) (files : List α) : UploadRun α :=
  let call : UploadCall α := ⟨files, none⟩
  let r := resp 0
  if r.ok then ⟨[call], [], .success r.batch_id r.file_count⟩
  else ⟨[call], [], .failure "Failed to upload images"⟩

/-- Embedding of the chunk loop of `uploadImagesChunked` (backend.js lines
46-80), processing the precomputed chunk list instead of the index loop
(`chunk = files.slice(i, i + CHUNK_SIZE)` with `i = callIdx * CHUNK_SIZE`,
so the error message index `Math.floor(i / CHUNK_SIZE) + 1` is
`callIdx + 1`).  `batchId = ""` models the falsy initial `null`; after a
successful response the code keeps the first truthy `batch_id`
(`if (!batchId) batchId = result.batch_id`).  After each successful chunk
the cumulative count and the total are reported (`onProgress(uploadedCount,
totalFiles)`). -/
def uploadChunksLoop (resp : Nat → UploadResp) (total : Nat) :
    List (List α) → Nat → String → Nat → UploadRun α
  | [], _, batchId, _ => ⟨[], [], .success batchId total⟩
  | chunk :: rest, callIdx, batchId, uploaded =>
    let call : UploadCall α := ⟨chunk, if batchId = "" then none else some batchId⟩
    let r := resp callIdx
    if r.ok then
      let batchId' := if batchId = "" then r.batch_id else batchId
      let uploaded' := uploaded + chunk.length
      let res := uploadChunksLoop resp total rest (callIdx + 1) batchId' uploaded'
      ⟨call :: res.calls, (uploaded', total) :: res.progressEvents, res.outcome⟩
    else
      ⟨[call], [], .failure ("Failed to upload chunk " ++ toString (callIdx + 1))⟩

/-- Embedding of `uploadImagesChunked` (backend.js lines 35-83): file lists of
at most `CHUNK_SIZE` files go through the single-call `uploadImages` path;
larger lists go through the sequential chunk loop, which finally returns
the object with `batch_id` equal to the accumulated `batchId` and
`file_count` equal to `totalFiles`. -/
def uploadImagesChunked (resp : Nat → UploadResp) (files : List α) : UploadRun α :=
  if files.length ≤ CHUNK_SIZE then uploadImages resp files
  else uploadChunksLoop resp files.length (chunksOf CHUNK_SIZE files) 0 "" 0

/-- Cumulative sums: `cumSums s [a, b, c] = [s + a, s + a + b, s + a + b + c]`.
Used to describe the `uploadedCount` values reported to `onProgress`. -/
def cumSums (s : Nat) : List Nat → List Nat
  | [] => []
  | a :: rest => (s + a) :: cumSums (s + a) rest

/-! ### Basic facts about `chunksOf` -/

lemma chunksOfGo_fuel (k : Nat) (hk : k ≠ 0) :
    ∀ (fuel fuel' : Nat) (xs : List α), xs.length ≤ fuel → xs.length ≤ fuel' →
      chunksOfGo k fuel xs = chunksOfGo k fuel' xs := by
  intro fuel
  induction fuel with
  | zero =>
    intro fuel' xs h h'
    have : xs = [] := List.length_eq_zero.mp (Nat.le_zero.mp h)
    subst this
    cases fuel' <;> rfl
  | succ fuel ih =>
    intro fuel' xs h h'
    cases xs with
    | nil => cases fuel' <;> rfl
    | cons x rest =>
      cases fuel' with
      | zero => simp at h'
      | succ fuel' =>
        show _ :: chunksOfGo k fuel _ = _ :: chunksOfGo k fuel' _
        have hdroplen : ((x :: rest).drop k).length ≤ fuel := by
          simp only [List.length_drop, List.length_cons] at h ⊢
          omega
        have hdroplen' : ((x :: rest).drop k).length ≤ fuel' := by
          simp only [List.length_drop, List.length_cons] at h' ⊢
          omega
        rw [ih fuel' _ hdroplen hdroplen']

lemma chunksOf_nil (k : Nat) : chunksOf k ([] : List α) = [] := rfl

lemma chunksOf_cons_of_ne (k : Nat) (hk : k ≠ 0) (xs : List α) (hx : xs ≠ []) :
    chunksOf k xs = xs.take k :: chunksOf k (xs.drop k) := by
  obtain ⟨x, rest, rfl⟩ := List.exists_cons_of_ne_nil hx
  show ((x :: rest).take k) :: chunksOfGo k rest.length ((x :: rest).drop k)
      = ((x :: rest).take k) :: chunksOf k ((x :: rest).drop k)
  have hfuel := chunksOfGo_fuel k hk rest.length ((x :: rest).drop k).length
    ((x :: rest).drop k)
    (by simp only [List.length_drop, List.length_cons]; omega)
    (Nat.le_refl _)
  rw [hfuel]
  rfl

lemma chunksOf_ne_nil (k : Nat) (hk : k ≠ 0) (xs : List α) (hx : xs ≠ []) :
    chunksOf k xs ≠ [] := by
  rw [chunksOf_cons_of_ne k hk xs hx]
  simp

lemma chunksOf_flatten (k : Nat) (hk : k ≠ 0) (xs : List α) :
    (chunksOf k xs).flatten = xs := by
  generalize hn : xs.length = n
  induction n using Nat.strong_induction_on generalizing xs with
  | _ n ih =>
    rcases eq_or_ne xs [] with rfl | hx
    · simp [chunksOf_nil]
    · rw [chunksOf_cons_of_ne k hk xs hx]
      have hlt : (xs.drop k).length < n := by
        subst hn
        simp only [List.length_drop]
        have : 0 < xs.length := List.length_pos.mpr hx
        omega
      simp only [List.flatten_cons]
      rw [ih _ hlt (xs.drop k) rfl, List.take_append_drop]

lemma chunksOf_length_100 (xs : List α) :
    (chunksOf 100 xs).length = (xs.length + 99) / 100 := by
  generalize hn : xs.length = n
  induction n using Nat.strong_induction_on generalizing xs with
  | _ n ih =>
    rcases eq_or_ne xs [] with rfl | hx
    · simp at hn
      simp [chunksOf_nil, ← hn]
    · rw [chunksOf_cons_of_ne 100 (by norm_num) xs hx]
      have hpos : 0 < xs.length := List.length_pos.mpr hx
      have hlt : (xs.drop 100).length < n := by
        simp only [List.length_drop]; omega
      have := ih _ hlt (xs.drop 100) rfl
      simp only [List.length_cons, this, List.length_drop]
      omega

lemma chunksOf_chunk_sizes (k : Nat) (hk : k ≠ 0) (xs : List α) :
    (∀ c ∈ (chunksOf k xs).dropLast, c.length = k) ∧
    (∀ c, (chunksOf k xs).getLast? = some c → 1 ≤ c.length ∧ c.length ≤ k) := by
  generalize hn : xs.length = n
  induction n using Nat.strong_induction_on generalizing xs with
  | _ n ih =>
    rcases eq_or_ne xs [] with rfl | hx
    · simp [chunksOf_nil]
    · rw [chunksOf_cons_of_ne k hk xs hx]
      have hlt : (xs.drop k).length < n := by
        subst hn
        simp only [List.length_drop]
        have : 0 < xs.length := List.length_pos.mpr hx
        omega
      rcases eq_or_ne (xs.drop k) [] with hdrop | hdrop
      · have hle : xs.length ≤ k := by
          have := List.length_drop k xs
          rw [hdrop] at this
          simp at this
          omega
        constructor
        · intro c hc
          simp [hdrop, chunksOf_nil] at hc
        · intro c hc
          simp [hdrop, chunksOf_nil, List.getLast?] at hc
          subst hc
          have hpos : 0 < xs.length := List.length_pos.mpr hx
          simp [List.length_take]
          omega
      · have hne : chunksOf k (xs.drop k) ≠ [] := chunksOf_ne_nil k hk _ hdrop
        obtain ⟨ihA, ihB⟩ := ih _ hlt (xs.drop k) rfl
        have hgt : k < xs.length := by
          by_contra hle
          push_neg at hle
          exact hdrop (List.drop_of_length_le hle)
        obtain ⟨c₀, cs, hcs⟩ := List.exists_cons_of_ne_nil hne
        rw [hcs]
        rw [hcs] at ihA ihB
        constructor
        · intro c hc
          rw [List.dropLast_cons₂] at hc
          rcases List.mem_cons.mp hc with rfl | hc
          · simp [List.length_take]
            omega
          · exact ihA c hc
        · intro c hc
          rw [List.getLast?_cons_cons] at hc
          exact ihB c hc

/-! ### Characterization of the chunk upload loop -/

lemma cumSums_cons (s a : Nat) (rest : List Nat) :
    cumSums s (a :: rest) = (s + a) :: cumSums (s + a) rest := rfl

lemma cumSums_length (s : Nat) (ls : List Nat) : (cumSums s ls).length = ls.length := by
  induction ls generalizing s with
  | nil => rfl
  | cons a rest ih => simp [cumSums, ih]

lemma cumSums_getLast? (s a : Nat) (rest : List Nat) :
    (cumSums s (a :: rest)).getLast? = some (s + (a :: rest).sum) := by
  induction rest generalizing s a with
  | nil => simp [cumSums]
  | cons b bs ih =>
    rw [cumSums_cons, cumSums_cons, List.getLast?_cons_cons, ← cumSums_cons, ih]
    simp only [List.sum_cons]
    congr 1
    omega

/-- When every response is ok and the batch id is already established
(non-empty), the loop uploads every chunk with that batch id, reports the
cumulative counts, and succeeds. -/
lemma uploadChunksLoop_all_ok (resp : Nat → UploadResp) (total : Nat)
    (hok : ∀ i, (resp i).ok = true) (b : String) (hb : b ≠ "") :
    ∀ (chunks : List (List α)) (idx uploaded : Nat),
      uploadChunksLoop resp total chunks idx b uploaded =
        ⟨chunks.map (fun c => ⟨c, some b⟩),
         (cumSums uploaded (chunks.map List.length)).map (fun u => (u, total)),
         .success b total⟩ := by
  intro chunks
  induction chunks with
  | nil => intro idx uploaded; rfl
  | cons c rest ih =>
    intro idx uploaded
    rw [uploadChunksLoop]
    simp only [hok idx, if_true, if_neg hb, ih (idx + 1) (uploaded + c.length)]
    simp [cumSums_cons]

/-- When the first `j` responses are ok and the `j`-th (0-based, relative to
`idx`) fails, the loop issues exactly the first `j + 1` chunk uploads, reports
progress only for the `j` successful ones, and fails naming chunk
`idx + j + 1` (1-based). -/
lemma uploadChunksLoop_fail (resp : Nat → UploadResp) (total : Nat) :
    ∀ (j : Nat) (chunks : List (List α)) (idx : Nat) (b : String) (uploaded : Nat),
      j < chunks.length →
      (∀ m, m < j → (resp (idx + m)).ok = true) →
      (resp (idx + j)).ok = false →
      (uploadChunksLoop resp total chunks idx b uploaded).calls.map (fun c => c.files)
          = chunks.take (j + 1)
      ∧ (uploadChunksLoop resp total chunks idx b uploaded).calls.length = j + 1
      ∧ (uploadChunksLoop resp total chunks idx b uploaded).progressEvents
          = (cumSums uploaded ((chunks.take j).map List.length)).map (fun u => (u, total))
      ∧ (uploadChunksLoop resp total chunks idx b uploaded).outcome
          = .failure ("Failed to upload chunk " ++ toString (idx + j + 1)) := by
  intro j
  induction j with
  | zero =>
    intro chunks idx b uploaded hj hpre hfail
    have hchunks : chunks ≠ [] := by
      intro h; rw [h] at hj; simp at hj
    obtain ⟨c, rest, rfl⟩ := List.exists_cons_of_ne_nil hchunks
    rw [uploadChunksLoop]
    simp only [Nat.add_zero] at hfail
    simp [hfail, cumSums]
  | succ j ih =>
    intro chunks idx b uploaded hj hpre hfail
    have hchunks : chunks ≠ [] := by
      intro h; rw [h] at hj; simp at hj
    obtain ⟨c, rest, rfl⟩ := List.exists_cons_of_ne_nil hchunks
    rw [uploadChunksLoop]
    have h0 : (resp idx).ok = true := by
      have := hpre 0 (Nat.succ_pos j)
      simpa using this
    have hpre' : ∀ m, m < j → (resp (idx + 1 + m)).ok = true := by
      intro m hm
      have := hpre (m + 1) (by omega)
      have harith : idx + (m + 1) = idx + 1 + m := by omega
      rwa [harith] at this
    have hfail' : (resp (idx + 1 + j)).ok = false := by
      have harith : idx + (j + 1) = idx + 1 + j := by omega
      rwa [harith] at hfail
    have hj' : j < rest.length := by simpa using Nat.lt_of_succ_lt_succ hj
    obtain ⟨ih1, ih2, ih3, ih4⟩ :=
      ih rest (idx + 1) (if b = "" then (resp idx).batch_id else b)
        (uploaded + c.length) hj' hpre' hfail'
    simp only [h0, if_true]
    refine ⟨?_, ?_, ?_, ?_⟩
    · simp only [List.map_cons, ih1, List.take_succ_cons]
    · simp only [List.length_cons, ih2]
    · simp only [List.take_succ_cons, List.map_cons, cumSums_cons, ih3]
    · simp only [ih4]
      have harith : idx + 1 + j + 1 = idx + (j + 1) + 1 := by omega
      rw [harith]

/-! ### Job status, polling and error classification -/

/-- A parsed `GET /extract/batch/status/...` JSON body as far as the client
reads it: the `status` string, the optional `error_message`, and the numeric
progress fields (absent fields are `none`). -/
structure JobStatus where
  status : String
  error_message : Option String
  processed : Option Nat
  total : Option Nat
  percentage : Option Nat
deriving DecidableEq

/-- Boolean test that `p` is an initial run of `s` (character lists). -/
def leadsWith : List Char → List Char → Bool
  | [], _ => true
  | _ :: _, [] => false
  | x :: xs, y :: ys => x = y && leadsWith xs ys

/-- Embedding of the JavaScript `String.prototype.startsWith` used in
`status.status?.startsWith("error")` (backend.js line 166). -/
def strStartsWith (s p : String) : Bool := leadsWith p.data s.data

/-- Embedding of the JavaScript `String.prototype.split` with a one-character
separator, on character lists: `splitOnChar c xs` is the list of maximal
groups of `xs` between occurrences of `c`. -/
def splitOnChar (c : Char) : List Char → List (List Char)
  | [] => [[]]
  | x :: rest =>
    if x = c then [] :: splitOnChar c rest
    else ((x :: (splitOnChar c rest).headD []) :: (splitOnChar c rest).tail)

/-- Embedding of `status.status.split(":")[1] || "unknown"` (backend.js line
168): the second group of the colon-split of the status string, with the
JavaScript falsy fallback (an out-of-range index gives `undefined`, an empty
group is falsy; both fall back to "unknown"). -/
def extractErrorType (status : String) : String :=
  match (splitOnChar ':' status.data).get? 1 with
  | none => "unknown"
  | some seg => if seg = [] then "unknown" else ⟨seg⟩

/-- Embedding of `getDefaultErrorMessage` (backend.js lines 191-200): the
fixed message table with lookup falling back to the "unknown" entry. -/
def getDefaultErrorMessage (errorType : String) : String :=
  if errorType = "rate_limit" then
    "API rate limit exceeded. Please wait a moment and try again."
  else if errorType = "insufficient_credits" then
    "API credits exhausted. Please add credits to your account or switch to a different AI provider in Settings."
  else if errorType = "invalid_key" then
    "API key is invalid or expired. Please check your API key in Settings."
  else if errorType = "no_valid_data" then
    "No text could be extracted from the images. Please try with clearer images."
  else
    "An unexpected error occurred during extraction."

/-- Embedding of the JavaScript string `||` default
(`status.error_message || getDefaultErrorMessage(errorType)`, backend.js
line 169): an absent field and an empty string are both falsy. -/
def jsOrElse (a : Option String) (b : String) : String :=
  match a with
  | none => b
  | some s => if s = "" then b else s

/-- What a run of `pollJobStatus` can end with: resolution with the final
payload, rejection through the `error:*` branch (carrying the extracted
`errorType` and the message), rejection through the `not_found` branch, or
exhaustion of the modelled status sequence while still pending. -/
inductive PollResult where
  | resolved (s : JobStatus)
  | rejectedError (errorType : String) (message : String)
  | rejectedNotFound (message : String)
  | exhausted
deriving DecidableEq

/-- Everything observable about one run of `pollJobStatus`: the number of
`getJobStatus` fetches issued, the `onProgress` invocations in order, the
`setTimeout` delays scheduled, and the terminal result. -/
structure PollRun where
  polls : Nat
  progressCalls : List JobStatus
  delays : List Nat
  result : PollResult
deriving DecidableEq

/-- Embedding of `pollJobStatus` (backend.js lines 154-186) over the sequence
of statuses the successive `getJobStatus` fetches return.  Each tick fetches
one status, invokes `onProgress` with it unconditionally, then either
resolves on "completed", rejects on a status starting with "error" (with the
extracted error type and the server message or per-kind default), rejects on
"not_found" with "Job not found", or schedules exactly one further tick after
`intervalMs` milliseconds. -/
def pollJobStatus (intervalMs : Nat) : List JobStatus → PollRun
  | [] => ⟨0, [], [], .exhausted⟩
  | s :: rest =>
    if s.status = "completed" then
      ⟨1, [s], [], .resolved s⟩
    else if strStartsWith s.status "error" then
      let et := extractErrorType s.status
      ⟨1, [s], [], .rejectedError et (jsOrElse s.error_message (getDefaultErrorMessage et))⟩
    else if s.status = "not_found" then
      ⟨1, [s], [], .rejectedNotFound "Job not found"⟩
    else
      let res := pollJobStatus intervalMs rest
      ⟨res.polls + 1, s :: res.progressCalls, intervalMs :: res.delays, res.result⟩

/-- A status on which `pollJobStatus` stops: exactly the conditions of the
three terminal branches of the source, in their order of testing. -/
def isTerminalStatus (s : JobStatus) : Bool :=
  (s.status = "completed" : Bool) || strStartsWith s.status "error"
    || (s.status = "not_found" : Bool)

/-- An HTTP response as `getJobStatus` sees it: the `ok` flag (true for 2xx),
the numeric status code, and the parsed JSON body. -/
structure HttpResponse where
  ok : Bool
  statusCode : Nat
  body : JobStatus
deriving DecidableEq

/-- Embedding of `getJobStatus` (backend.js lines 134-145): a non-2xx
response with code 404 is translated to the object with only a
"not_found" status field; any other non-2xx response throws; a 2xx
response returns the parsed body unchanged. -/
def getJobStatus (r : HttpResponse) : Except String JobStatus :=
  if r.ok then .ok r.body
  else if r.statusCode = 404 then .ok ⟨"not_found", none, none, none, none⟩
  else .error "Failed to get job status"

/-! ### Mode selection, progress composition and schema building -/

/-- The processing mode state of the App component (default "auto"). -/
inductive ProcessingMode where
  | auto
  | sync
  | async
deriving DecidableEq

/-- System limits structure of the App component (part_000 lines 163-169). -/
structure SystemLimits where
  syncMax : Nat
  recommended : Nat
  warning : Nat
  danger : Nat
deriving DecidableEq

/-- The configured limits: `syncMax: 0` means async is always chosen in auto
mode (part_000 line 165). -/
def LIMITS : SystemLimits := ⟨0, 500, 2000, 5000⟩

/-- Embedding of `shouldUseAsync` (part_000 lines 327-331).  In the source
`processingMode` is component state captured by the closure; here it is an
explicit argument, making the function pure in `(imageCount, mode)`. -/
def shouldUseAsync (imageCount : Nat) (mode : ProcessingMode) : Bool :=
  match mode with
  | .sync => false
  | .async => true
  | .auto => imageCount > LIMITS.syncMax

/-- Embedding of JavaScript `Math.round` on rationals: for every JavaScript
number, `Math.round x = floor (x + 0.5)` (halves round toward positive
infinity). -/
def jsRound (q : ℚ) : ℤ := ⌊q + 1 / 2⌋

/-- Upload-phase overall percentage, from the `onProgress` callback in
`handleExtract` (part_000 line 458):
`Math.round((uploaded / total) * 30)`. -/
def uploadProgressPct (uploaded total : Nat) : ℤ :=
  jsRound ((uploaded : ℚ) / (total : ℚ) * 30)

/-- Extraction-phase overall percentage, from the poll callback in
`handleExtract` (part_000 line 480):
`30 + Math.round((progressData.percentage / 100) * 70)`. -/
def extractProgressPct (p : ℚ) : ℤ :=
  30 + jsRound (p / 100 * 70)

/-- Embedding of the JavaScript `String.prototype.trim`: remove leading and
trailing whitespace. -/
def jsTrim (s : String) : String :=
  ⟨((s.data.dropWhile Char.isWhitespace).reverse.dropWhile Char.isWhitespace).reverse⟩

/-- Embedding of `buildSchema` (part_000 lines 334-340) as the key/value list
of the produced JavaScript object in insertion order.  A field whose trimmed
name is empty is skipped; a repeated key leaves the object unchanged
(reassigning `null` to an existing key changes neither order nor value).
`jsTrim` stands for the JavaScript `trim`. -/
def buildSchemaLoop (acc : List (String × Option String)) :
    List String → List (String × Option String)
  | [] => acc
  | f :: fs =>
    if jsTrim f = "" then buildSchemaLoop acc fs
    else if (acc.map Prod.fst).contains (jsTrim f) then buildSchemaLoop acc fs
    else buildSchemaLoop (acc ++ [(jsTrim f, none)]) fs

/-- The schema object sent to the server, as built by `buildSchema`. -/
def buildSchema (fields : List String) : List (String × Option String) :=
  buildSchemaLoop [] fields

/-- Outcome of the validation prologue of `handleExtract` (part_000 lines
429-438): either an early return with an error message and no network
activity, or entry into the try block with the schema that will be sent. -/
inductive ExtractStart where
  | earlyError (msg : String)
  | proceed (schema : List (String × Option String))
deriving DecidableEq

/-- Embedding of the guards of `handleExtract`: an empty file list or a field
list whose entries all trim to the empty string cause an early error return
before any network operation; otherwise the extraction proceeds with the
schema `buildSchema` produces (the schema is built later in the source, line
463, but from the same unchanged `schemaFields`). -/
def handleExtractGuard (files : List α) (schemaFields : List String) : ExtractStart :=
  if files.length = 0 then .earlyError "Please upload at least one image"
  else if (schemaFields.filter (fun f => jsTrim f ≠ "")).length = 0 then
    .earlyError "Please define at least one field to extract"
  else .proceed (buildSchema schemaFields)

/-- One network operation issued by the extraction workflow. -/
inductive NetOp where
  | uploadCall
  | extractSyncCall
  | extractAsyncCall
  | pollTick
deriving DecidableEq

/-- The sequence of network operations issued by one run of `handleExtract`
(part_000 lines 429-558).  `aborted t` says whether the abort signal of the
AbortController created at line 447 is set before the `t`-th network
operation; it is faithful to the source that the value is never consulted:
`controller.signal` is not passed to any fetch in backend.js and no code
checks it, so the issued operations do not depend on it.  Upload failure
throws out of the try block, skipping extraction; otherwise a sync run makes
one `extractBatch` call and an async run makes one `extractBatchAsync` call
followed by the fetches of `pollJobStatus` (default interval 2000). -/
def handleExtractNetOps (aborted : Nat → Bool) (resp : Nat → UploadResp)
    (files : List α) (schemaFields : List String) (mode : ProcessingMode)
    (statuses : List JobStatus) : List NetOp :=
  match handleExtractGuard files schemaFields with
  | .earlyError _ => []
  | .proceed _ =>
    let run := uploadImagesChunked resp files
    let upOps := run.calls.map (fun _ => NetOp.uploadCall)
    match run.outcome with
    | .failure _ => upOps
    | .success _ _ =>
      if shouldUseAsync files.length mode then
        upOps ++ NetOp.extractAsyncCall ::
          List.replicate (pollJobStatus 2000 statuses).polls NetOp.pollTick
      else
        upOps ++ [NetOp.extractSyncCall]

/-! ### Facts about the string split and the poll loop -/

lemma leadsWith_append (p t : List Char) : leadsWith p (p ++ t) = true := by
  induction p with
  | nil => rfl
  | cons x xs ih => simp [leadsWith, ih]

lemma splitOnChar_no_sep (c : Char) (xs : List Char) (h : c ∉ xs) :
    splitOnChar c xs = [xs] := by
  induction xs with
  | nil => rfl
  | cons x rest ih =>
    have hx : x ≠ c := fun hxc => h (hxc ▸ List.mem_cons_self x rest)
    have hr : c ∉ rest := fun hc => h (List.mem_cons_of_mem x hc)
    simp [splitOnChar, hx, ih hr]

lemma splitOnChar_append_sep (c : Char) (p t : List Char) (hp : c ∉ p) :
    splitOnChar c (p ++ c :: t) = p :: splitOnChar c t := by
  induction p with
  | nil => simp [splitOnChar]
  | cons x xs ih =>
    have hx : x ≠ c := fun hxc => hp (hxc ▸ List.mem_cons_self x xs)
    have hxs : c ∉ xs := fun hc => hp (List.mem_cons_of_mem x hc)
    simp [splitOnChar, hx, ih hxs]

lemma error_colon_data (kind : String) :
    ("error:" ++ kind).data = "error".data ++ ':' :: kind.data := by
  have h1 : ("error:" ++ kind).data = "error:".data ++ kind.data := String.data_append _ _
  have h2 : "error:".data = "error".data ++ [':'] := by decide
  rw [h1, h2, List.append_assoc, List.singleton_append]

/-- The extracted error type of a status of the documented shape
`error:<kind>` with a colon-free kind: the kind itself when non-empty,
otherwise the falsy fallback "unknown". -/
lemma extractErrorType_error_kind (kind : String) (hnc : ':' ∉ kind.data) :
    extractErrorType ("error:" ++ kind) = if kind = "" then "unknown" else kind := by
  obtain ⟨kd⟩ := kind
  simp only [extractErrorType, error_colon_data]
  rw [splitOnChar_append_sep ':' _ _ (by decide), splitOnChar_no_sep ':' kd hnc]
  simp only [List.get?_eq_getElem?]
  rcases eq_or_ne kd ([] : List Char) with rfl | hk
  · rfl
  · have hne : (⟨kd⟩ : String) ≠ "" := fun h => hk (congrArg String.data h)
    simp [hk, hne]

/-- As above, but with further colon-separated content after the kind: only
the group between the first and the second colon is taken. -/
lemma extractErrorType_error_kind_rest (kind rest : String) (hnc : ':' ∉ kind.data) :
    extractErrorType ("error:" ++ kind ++ ":" ++ rest)
      = if kind = "" then "unknown" else kind := by
  obtain ⟨kd⟩ := kind
  have hdata : ("error:" ++ ⟨kd⟩ ++ ":" ++ rest).data
      = "error".data ++ ':' :: (kd ++ ':' :: rest.data) := by
    have h1 : ("error:" ++ (⟨kd⟩ : String) ++ ":" ++ rest).data
        = ("error:" ++ (⟨kd⟩ : String)).data ++ ":".data ++ rest.data := by
      rw [String.data_append, String.data_append]
    rw [h1, error_colon_data]
    simp [List.append_assoc]
  simp only [extractErrorType, hdata]
  rw [splitOnChar_append_sep ':' _ _ (by decide),
    splitOnChar_append_sep ':' kd rest.data hnc]
  rcases eq_or_ne kd ([] : List Char) with rfl | hk
  · show "unknown"
        = if (⟨([] : List Char)⟩ : String) = "" then "unknown" else ⟨([] : List Char)⟩
    rw [if_pos rfl]
  · have hne : (⟨kd⟩ : String) ≠ "" := fun h => hk (congrArg String.data h)
    show (if kd = [] then "unknown" else (⟨kd⟩ : String))
        = if (⟨kd⟩ : String) = "" then "unknown" else ⟨kd⟩
    simp [hk, hne]

lemma strStartsWith_error_colon (kind : String) :
    strStartsWith ("error:" ++ kind) "error" = true := by
  simp only [strStartsWith, error_colon_data]
  exact leadsWith_append _ _

lemma status_error_ne_completed (t : String) (h : strStartsWith t "error" = true) :
    t ≠ "completed" := by
  rintro rfl
  exact absurd h (by decide)

lemma status_error_ne_not_found (t : String) (h : strStartsWith t "error" = true) :
    t ≠ "not_found" := by
  rintro rfl
  exact absurd h (by decide)

lemma getDefaultErrorMessage_ne_empty (et : String) : getDefaultErrorMessage et ≠ "" := by
  unfold getDefaultErrorMessage
  split_ifs <;> decide

lemma pollJobStatus_terminal_head (intervalMs : Nat) (s : JobStatus)
    (rest : List JobStatus) (hs : isTerminalStatus s = true) :
    pollJobStatus intervalMs (s :: rest)
      = ⟨1, [s], [], (pollJobStatus intervalMs [s]).result⟩ := by
  simp only [isTerminalStatus, Bool.or_eq_true, decide_eq_true_eq] at hs
  rw [pollJobStatus, pollJobStatus]
  by_cases hc : s.status = "completed"
  · simp [hc]
  · by_cases he : strStartsWith s.status "error" = true
    · simp [hc, he]
    · have hn : s.status = "not_found" := by
        rcases hs with (h | h) | h
        · exact absurd h hc
        · exact absurd h he
        · exact h
      have hnf : strStartsWith "not_found" "error" = false := by decide
      simp [hc, he, hn, hnf]

lemma pollJobStatus_nonterminal_cons (intervalMs : Nat) (t : JobStatus)
    (ts : List JobStatus) (ht : isTerminalStatus t = false) :
    pollJobStatus intervalMs (t :: ts)
      = ⟨(pollJobStatus intervalMs ts).polls + 1,
         t :: (pollJobStatus intervalMs ts).progressCalls,
         intervalMs :: (pollJobStatus intervalMs ts).delays,
         (pollJobStatus intervalMs ts).result⟩ := by
  simp only [isTerminalStatus, Bool.or_eq_false_iff, decide_eq_false_iff_not] at ht
  obtain ⟨⟨hc, he⟩, hn⟩ := ht
  rw [pollJobStatus]
  simp [hc, he, hn]

/-- One run of the poll loop over a sequence with a first terminal status at
position `pre.length`: the loop polls once per status up to and including the
terminal one, schedules one delay per non-terminal status, reports every
polled status to `onProgress`, and stops with the result determined by the
terminal status alone (statuses after it are never fetched). -/
lemma pollJobStatus_append (intervalMs : Nat) (pre : List JobStatus)
    (s : JobStatus) (rest : List JobStatus)
    (hpre : ∀ t ∈ pre, isTerminalStatus t = false)
    (hs : isTerminalStatus s = true) :
    pollJobStatus intervalMs (pre ++ s :: rest)
      = ⟨pre.length + 1, pre ++ [s], List.replicate pre.length intervalMs,
         (pollJobStatus intervalMs [s]).result⟩ := by
  induction pre with
  | nil =>
    simpa using pollJobStatus_terminal_head intervalMs s rest hs
  | cons t ts ih =>
    have ht : isTerminalStatus t = false := hpre t (List.mem_cons_self t ts)
    have hts : ∀ u ∈ ts, isTerminalStatus u = false :=
      fun u hu => hpre u (List.mem_cons_of_mem t hu)
    rw [List.cons_append, pollJobStatus_nonterminal_cons intervalMs t _ ht, ih hts]
    simp [List.replicate_succ]

/-! ### Facts about the schema builder -/

lemma buildSchemaLoop_mem_keys (fields : List String) :
    ∀ (acc : List (String × Option String)) (k : String),
      (k ∈ (buildSchemaLoop acc fields).map Prod.fst ↔
        k ∈ acc.map Prod.fst ∨ (k ≠ "" ∧ ∃ f ∈ fields, jsTrim f = k)) := by
  induction fields with
  | nil => intro acc k; simp [buildSchemaLoop]
  | cons f fs ih =>
    intro acc k
    rw [buildSchemaLoop]
    by_cases hf : jsTrim f = ""
    · rw [if_pos hf, ih]
      constructor
      · rintro (h | ⟨hk, g, hg, hgk⟩)
        · exact Or.inl h
        · exact Or.inr ⟨hk, g, List.mem_cons_of_mem f hg, hgk⟩
      · rintro (h | ⟨hk, g, hg, hgk⟩)
        · exact Or.inl h
        · rcases List.mem_cons.mp hg with rfl | hg
          · exact absurd (hgk ▸ hf) hk
          · exact Or.inr ⟨hk, g, hg, hgk⟩
    · rw [if_neg hf]
      by_cases hmem : (acc.map Prod.fst).contains (jsTrim f)
      · rw [if_pos hmem, ih]
        have hmem' : jsTrim f ∈ acc.map Prod.fst := by
          simpa using hmem
        constructor
        · rintro (h | ⟨hk, g, hg, hgk⟩)
          · exact Or.inl h
          · exact Or.inr ⟨hk, g, List.mem_cons_of_mem f hg, hgk⟩
        · rintro (h | ⟨hk, g, hg, hgk⟩)
          · exact Or.inl h
          · rcases List.mem_cons.mp hg with rfl | hg
            · exact Or.inl (hgk ▸ hmem')
            · exact Or.inr ⟨hk, g, hg, hgk⟩
      · rw [if_neg hmem, ih]
        simp only [List.map_append, List.map_cons, List.map_nil, List.mem_append,
          List.mem_singleton]
        constructor
        · rintro ((h | h) | ⟨hk, g, hg, hgk⟩)
          · exact Or.inl h
          · exact Or.inr ⟨h ▸ hf, f, List.mem_cons_self f fs, h.symm⟩
          · exact Or.inr ⟨hk, g, List.mem_cons_of_mem f hg, hgk⟩
        · rintro (h | ⟨hk, g, hg, hgk⟩)
          · exact Or.inl (Or.inl h)
          · rcases List.mem_cons.mp hg with rfl | hg
            · exact Or.inl (Or.inr hgk.symm)
            · exact Or.inr ⟨hk, g, hg, hgk⟩

lemma buildSchemaLoop_nodup_keys (fields : List String) :
    ∀ (acc : List (String × Option String)),
      ((acc.map Prod.fst).Nodup) → ((buildSchemaLoop acc fields).map Prod.fst).Nodup := by
  induction fields with
  | nil => intro acc h; exact h
  | cons f fs ih =>
    intro acc h
    rw [buildSchemaLoop]
    by_cases hf : jsTrim f = ""
    · rw [if_pos hf]; exact ih acc h
    · rw [if_neg hf]
      by_cases hmem : (acc.map Prod.fst).contains (jsTrim f)
      · rw [if_pos hmem]; exact ih acc h
      · rw [if_neg hmem]
        refine ih _ ?_
        have hnotmem : jsTrim f ∉ acc.map Prod.fst := by
          simpa using hmem
        simp only [List.map_append, List.map_cons, List.map_nil]
        refine List.Nodup.append h (List.nodup_singleton _) ?_
        intro x hx hx'
        rw [List.mem_singleton] at hx'
        exact hnotmem (hx' ▸ hx)

lemma buildSchemaLoop_values (fields : List String) :
    ∀ (acc : List (String × Option String)), (∀ p ∈ acc, p.2 = none) →
      ∀ p ∈ buildSchemaLoop acc fields, p.2 = none := by
  induction fields with
  | nil => intro acc h; exact h
  | cons f fs ih =>
    intro acc h
    rw [buildSchemaLoop]
    by_cases hf : jsTrim f = ""
    · rw [if_pos hf]; exact ih acc h
    · rw [if_neg hf]
      by_cases hmem : (acc.map Prod.fst).contains (jsTrim f)
      · rw [if_pos hmem]; exact ih acc h
      · rw [if_neg hmem]
        refine ih _ ?_
        intro p hp
        rcases List.mem_append.mp hp with hp | hp
        · exact h p hp
        · rw [List.mem_singleton.mp hp]

/-- Full characterization of a large-batch upload when every response is ok
and the first response carries a truthy batch id: the first call holds the
first 100 files with no `batch_id` field, every later call holds the next
chunk with the batch id of the first response, progress is reported cumulatively,
and the run succeeds. -/
lemma uploadImagesChunked_large_ok (resp : Nat → UploadResp) (files : List α)
    (hn : 100 < files.length) (hok : ∀ i, (resp i).ok = true)
    (hb : (resp 0).batch_id ≠ "") :
    uploadImagesChunked resp files =
      ⟨⟨files.take 100, none⟩ ::
         (chunksOf 100 (files.drop 100)).map
           (fun c => ⟨c, some ((resp 0).batch_id)⟩),
       (cumSums 0 ((chunksOf 100 files).map List.length)).map
         (fun u => (u, files.length)),
       .success ((resp 0).batch_id) files.length⟩ := by
  have hfne : files ≠ [] := by
    intro h
    rw [h] at hn
    simp at hn
  have hsplit := chunksOf_cons_of_ne 100 (by norm_num) files hfne
  rw [uploadImagesChunked]
  rw [if_neg (show ¬files.length ≤ CHUNK_SIZE by simp only [CHUNK_SIZE]; omega)]
  simp only [CHUNK_SIZE]
  rw [hsplit, uploadChunksLoop]
  simp only [hok 0, if_true]
  rw [uploadChunksLoop_all_ok resp files.length hok ((resp 0).batch_id) hb]
  simp [hsplit, cumSums_cons]

/-- C1: for every file list of length n (with the server honoring the upload
interface: 2xx responses and a non-empty batch id on the first response), if
n is at most the chunk size 100 then `uploadImagesChunked` issues exactly one
upload call (with all files and no batch id field); if n exceeds 100 it
issues exactly ceil(n/100) calls over the consecutive slices of 100 files
each (the last slice possibly shorter), strictly in order, and every call
after the first carries the batch id taken from the first response. -/
theorem uploadImagesChunked_chunking (resp : Nat → UploadResp) (files : List α)
    (hok : ∀ i, (resp i).ok = true) (hb : (resp 0).batch_id ≠ "") :
    (files.length ≤ 100 → (uploadImagesChunked resp files).calls = [⟨files, none⟩])
    ∧ (100 < files.length →
        (uploadImagesChunked resp files).calls.length = (files.length + 99) / 100
        ∧ (uploadImagesChunked resp files).calls.map (fun c => c.files)
            = chunksOf 100 files
        ∧ (chunksOf 100 files).flatten = files
        ∧ (∀ c ∈ (chunksOf 100 files).dropLast, c.length = 100)
        ∧ (∀ c, (chunksOf 100 files).getLast? = some c →
            1 ≤ c.length ∧ c.length ≤ 100)
        ∧ (∀ c, (uploadImagesChunked resp files).calls.head? = some c →
            c.batch_id = none)
        ∧ (∀ i, 0 < i → ∀ c, (uploadImagesChunked resp files).calls[i]? = some c →
            c.batch_id = some ((resp 0).batch_id))) := by
  constructor
  · intro hsmall
    rw [uploadImagesChunked]
    rw [if_pos (show files.length ≤ CHUNK_SIZE by simpa [CHUNK_SIZE] using hsmall)]
    rw [uploadImages]
    simp [hok 0]
  · intro hlarge
    have hrw := uploadImagesChunked_large_ok resp files hlarge hok hb
    have hsplit := chunksOf_cons_of_ne 100 (by norm_num) files
      (by intro h; rw [h] at hlarge; simp at hlarge)
    refine ⟨?_, ?_, chunksOf_flatten 100 (by norm_num) files,
      (chunksOf_chunk_sizes 100 (by norm_num) files).1,
      (chunksOf_chunk_sizes 100 (by norm_num) files).2, ?_, ?_⟩
    · rw [hrw]
      simp only [List.length_cons, List.length_map]
      rw [← chunksOf_length_100 files, hsplit]
      simp
    · rw [hrw, hsplit]
      simp only [List.map_cons, List.map_map, List.cons.injEq, true_and]
      exact (List.map_congr_left (fun c _ => rfl)).trans (List.map_id _)
    · intro c hc
      rw [hrw] at hc
      simp only [List.head?_cons, Option.some.injEq] at hc
      rw [← hc]
    · intro i hipos c hc
      rw [hrw] at hc
      cases i with
      | zero => exact absurd hipos (by omega)
      | succ j =>
        simp only [List.getElem?_cons_succ, List.getElem?_map] at hc
        obtain ⟨a, ha, rfl⟩ := Option.map_eq_some'.mp hc
        rfl

set_option maxRecDepth 40000 in
/-- Witness for C1 at the 250-image scenario of the spec: all responses ok
with batch id "b"; exactly 3 calls of sizes 100, 100 and 50, the second and
third carrying batch id "b". -/
theorem uploadImagesChunked_chunking_witness :
    (uploadImagesChunked (fun _ => ⟨true, "b", 0⟩) (List.range 250)).calls.length = 3
    ∧ (uploadImagesChunked (fun _ => ⟨true, "b", 0⟩) (List.range 250)).calls.map
        (fun c => (c.files.length, c.batch_id))
        = [(100, none), (100, some "b"), (50, some "b")] := by
  have h := uploadImagesChunked_chunking (fun _ => ⟨true, "b", 0⟩) (List.range 250)
    (fun _ => rfl) (by decide)
  have h1 := (h.2 (by simp)).1
  constructor
  · rw [h1]
    simp
  · decide

/-- C5 as stated is false on the single-call path: uploading one file (at
most 100, with a non-null `onProgress`) issues one call but `onProgress` is
never invoked, because `uploadImages` ignores its `onProgress` parameter, so
no final invocation reporting (n, n) happens. -/
theorem uploadImagesChunked_no_progress_small_batch :
    (uploadImagesChunked (fun _ => ⟨true, "b", 1⟩) ([0] : List Nat))
      = ⟨[⟨[0], none⟩], [], .success "b" 1⟩ := by
  decide

/-- C5 (amended): for a non-null `onProgress` and an all-ok server, on the
chunked path (more than 100 files) `onProgress` is invoked exactly once per
chunk, after that chunk completes, with the cumulative uploaded count and
the fixed total, ending at (n, n); on the single-call path (at most 100
files) `onProgress` is never invoked by the upload layer. -/
theorem uploadImagesChunked_progress_events (resp : Nat → UploadResp)
    (files : List α) (hok : ∀ i, (resp i).ok = true) (hb : (resp 0).batch_id ≠ "") :
    (files.length ≤ 100 → (uploadImagesChunked resp files).progressEvents = [])
    ∧ (100 < files.length →
        (uploadImagesChunked resp files).progressEvents
            = (cumSums 0 ((chunksOf 100 files).map List.length)).map
                (fun u => (u, files.length))
        ∧ (uploadImagesChunked resp files).progressEvents.length
            = (uploadImagesChunked resp files).calls.length
        ∧ (uploadImagesChunked resp files).progressEvents.getLast?
            = some (files.length, files.length)) := by
  constructor
  · intro hsmall
    rw [uploadImagesChunked]
    rw [if_pos (show files.length ≤ CHUNK_SIZE by simpa [CHUNK_SIZE] using hsmall)]
    rw [uploadImages]
    simp [hok 0]
  · intro hlarge
    have hrw := uploadImagesChunked_large_ok resp files hlarge hok hb
    have hfne : files ≠ [] := by
      intro h
      rw [h] at hlarge
      simp at hlarge
    have hsplit := chunksOf_cons_of_ne 100 (by norm_num) files hfne
    refine ⟨by rw [hrw], ?_, ?_⟩
    · rw [hrw]
      simp only [List.length_cons, List.length_map, cumSums_length]
      rw [hsplit]
      simp
    · rw [hrw]
      have hsum : ((chunksOf 100 files).map List.length).sum = files.length := by
        rw [← List.length_flatten, chunksOf_flatten 100 (by norm_num) files]
      obtain ⟨l0, ls, hls⟩ : ∃ l0 ls, (chunksOf 100 files).map List.length = l0 :: ls := by
        rw [hsplit]
        exact ⟨_, _, rfl⟩
      rw [hls]
      rw [List.getLast?_map, cumSums_getLast?]
      rw [← hls, hsum]
      simp

/-- C6: on the chunked path, if the first j chunk uploads succeed and the
(j+1)-st fails (non-2xx), the whole operation fails immediately with an
error naming the 1-based index j+1 of the failed chunk; exactly j+1 calls
are issued (the failed chunk is fetched once, nothing after it, no retry)
over the first j+1 slices in order, and `onProgress` fires only for the j
successful chunks. -/
theorem uploadImagesChunked_chunk_failure (resp : Nat → UploadResp)
    (files : List α) (j : Nat) (hn : 100 < files.length)
    (hj : j < (files.length + 99) / 100)
    (hpre : ∀ m, m < j → (resp m).ok = true) (hfail : (resp j).ok = false) :
    (uploadImagesChunked resp files).outcome
        = .failure ("Failed to upload chunk " ++ toString (j + 1))
    ∧ (uploadImagesChunked resp files).calls.length = j + 1
    ∧ (uploadImagesChunked resp files).calls.map (fun c => c.files)
        = (chunksOf 100 files).take (j + 1)
    ∧ (uploadImagesChunked resp files).progressEvents.length = j := by
  have hchlen : (chunksOf 100 files).length = (files.length + 99) / 100 :=
    chunksOf_length_100 files
  have hj' : j < (chunksOf 100 files).length := by rw [hchlen]; exact hj
  have hpre' : ∀ m, m < j → (resp (0 + m)).ok = true := by
    intro m hm
    rw [Nat.zero_add]
    exact hpre m hm
  have hfail' : (resp (0 + j)).ok = false := by
    rw [Nat.zero_add]
    exact hfail
  have hrun := uploadChunksLoop_fail resp files.length j (chunksOf 100 files)
    0 "" 0 hj' hpre' hfail'
  obtain ⟨h1, h2, h3, h4⟩ := hrun
  have hunfold : uploadImagesChunked resp files
      = uploadChunksLoop resp files.length (chunksOf 100 files) 0 "" 0 := by
    rw [uploadImagesChunked]
    rw [if_neg (show ¬files.length ≤ CHUNK_SIZE by simp only [CHUNK_SIZE]; omega)]
    rfl
  rw [hunfold]
  refine ⟨?_, h2, h1, ?_⟩
  · rw [h4]
    simp
  · rw [h3]
    simp only [List.length_map, cumSums_length, List.length_take]
    omega

/-- Witness for C6: 150 files, the second chunk upload fails; the run fails
with "Failed to upload chunk 2" after exactly 2 calls and 1 progress event. -/
theorem uploadImagesChunked_chunk_failure_witness :
    (uploadImagesChunked
        (fun i => if i = 0 then ⟨true, "b", 0⟩ else ⟨false, "", 0⟩)
        (List.range 150)).outcome = .failure "Failed to upload chunk 2"
    ∧ (uploadImagesChunked
        (fun i => if i = 0 then ⟨true, "b", 0⟩ else ⟨false, "", 0⟩)
        (List.range 150)).calls.length = 2
    ∧ (uploadImagesChunked
        (fun i => if i = 0 then ⟨true, "b", 0⟩ else ⟨false, "", 0⟩)
        (List.range 150)).progressEvents.length = 1 := by
  have h := uploadImagesChunked_chunk_failure
    (fun i => if i = 0 then ⟨true, "b", 0⟩ else ⟨false, "", 0⟩)
    (List.range 150) 1 (by simp) (by simp)
    (by intro m hm; interval_cases m; rfl) (by rfl)
  exact ⟨h.1.trans (by decide), h.2.1, h.2.2.2⟩

set_option maxRecDepth 40000 in
/-- Witness for the amended C5: 250 ok-uploaded files produce the progress
events (100,250), (200,250), (250,250); a 1-file upload produces none. -/
theorem uploadImagesChunked_progress_events_witness :
    (uploadImagesChunked (fun _ => ⟨true, "b", 0⟩) (List.range 250)).progressEvents
        = [(100, 250), (200, 250), (250, 250)]
    ∧ (uploadImagesChunked (fun _ => ⟨true, "b", 1⟩) (List.range 1)).progressEvents
        = [] := by
  have h := uploadImagesChunked_progress_events (fun _ => ⟨true, "b", 0⟩)
    (List.range 250) (fun _ => rfl) (by decide)
  have h2 := uploadImagesChunked_progress_events (fun _ => ⟨true, "b", 1⟩)
    (List.range 1) (fun _ => rfl) (by decide)
  refine ⟨?_, h2.1 (by simp)⟩
  have h1 := (h.2 (by simp)).1
  rw [h1]
  decide

/-- C2 as stated is false for a present but empty server message: a status
"error:rate_limit" whose `error_message` field is present and equal to ""
rejects with the default rate-limit message, not with the server-supplied
(empty) message, because the JavaScript fallback tests truthiness rather
than presence. -/
theorem pollJobStatus_empty_message_counterexample :
    (pollJobStatus 2000 [⟨"error:rate_limit", some "", none, none, none⟩]).result
      = .rejectedError "rate_limit"
          "API rate limit exceeded. Please wait a moment and try again."
    ∧ ("API rate limit exceeded. Please wait a moment and try again." : String)
      ≠ ("" : String) := by
  exact ⟨by decide, by decide⟩

/-- C2 (amended): over any observed status sequence whose first terminal
status sits after a prefix of non-terminal statuses, `pollJobStatus` polls
once per status up to and including the terminal one and never again,
scheduling exactly one further poll after `intervalMs` for each non-terminal
status; it resolves with the payload on "completed"; rejects immediately
with "Job not found" on "not_found"; and on a status beginning with "error"
rejects with errorType equal to the substring between the first and second
colon of an `error:<kind>` status, with the server-supplied `error_message`
as message when that field is present and non-empty, and with the exact
per-kind default message otherwise. -/
theorem pollJobStatus_terminal_behavior (intervalMs : Nat)
    (pre rest : List JobStatus) (s : JobStatus)
    (hpre : ∀ t ∈ pre, isTerminalStatus t = false)
    (hs : isTerminalStatus s = true) :
    (pollJobStatus intervalMs (pre ++ s :: rest)).polls = pre.length + 1
    ∧ (pollJobStatus intervalMs (pre ++ s :: rest)).delays
        = List.replicate pre.length intervalMs
    ∧ (pollJobStatus intervalMs (pre ++ s :: rest)).progressCalls = pre ++ [s]
    ∧ (s.status = "completed" →
        (pollJobStatus intervalMs (pre ++ s :: rest)).result = .resolved s)
    ∧ (s.status = "not_found" →
        (pollJobStatus intervalMs (pre ++ s :: rest)).result
          = .rejectedNotFound "Job not found")
    ∧ (strStartsWith s.status "error" = true →
        (pollJobStatus intervalMs (pre ++ s :: rest)).result
          = .rejectedError (extractErrorType s.status)
              (jsOrElse s.error_message
                (getDefaultErrorMessage (extractErrorType s.status))))
    ∧ (∀ kind : String, s.status = "error:" ++ kind → ':' ∉ kind.data →
        kind ≠ "" → extractErrorType s.status = kind)
    ∧ (∀ m : String, s.error_message = some m → m ≠ "" →
        jsOrElse s.error_message (getDefaultErrorMessage (extractErrorType s.status))
          = m)
    ∧ (s.error_message = none →
        jsOrElse s.error_message (getDefaultErrorMessage (extractErrorType s.status))
          = getDefaultErrorMessage (extractErrorType s.status)) := by
  have happ := pollJobStatus_append intervalMs pre s rest hpre hs
  rw [happ]
  refine ⟨rfl, rfl, rfl, ?_, ?_, ?_, ?_, ?_, ?_⟩
  · intro hc
    rw [pollJobStatus]
    simp [hc]
  · intro hnf
    have hne : strStartsWith "not_found" "error" = false := by decide
    rw [pollJobStatus]
    simp [hnf, hne]
  · intro he
    have hc := status_error_ne_completed s.status he
    rw [pollJobStatus]
    simp [hc, he]
  · intro kind hkind hnc hke
    rw [hkind, extractErrorType_error_kind kind hnc, if_neg hke]
  · intro m hm hme
    rw [hm, jsOrElse, if_neg hme]
  · intro hm
    rw [hm, jsOrElse]

/-- Witness for the amended C2: one "processing" status followed by
"completed" gives two polls, one scheduled delay of 2000 ms, and resolution
with the completed payload. -/
theorem pollJobStatus_terminal_behavior_witness :
    (pollJobStatus 2000
        [⟨"processing", none, some 10, some 100, some 10⟩,
         ⟨"completed", none, some 100, some 100, some 100⟩]).polls = 2
    ∧ (pollJobStatus 2000
        [⟨"processing", none, some 10, some 100, some 10⟩,
         ⟨"completed", none, some 100, some 100, some 100⟩]).delays = [2000]
    ∧ (pollJobStatus 2000
        [⟨"processing", none, some 10, some 100, some 10⟩,
         ⟨"completed", none, some 100, some 100, some 100⟩]).result
      = .resolved ⟨"completed", none, some 100, some 100, some 100⟩ := by
  have h := pollJobStatus_terminal_behavior 2000
    [⟨"processing", none, some 10, some 100, some 10⟩] []
    ⟨"completed", none, some 100, some 100, some 100⟩
    (by intro t ht; simp at ht; rw [ht]; decide) (by decide)
  exact ⟨h.1, h.2.1, h.2.2.2.1 rfl⟩

/-- C3: overall progress is round(k/n*30) during upload and
30 + round(p/100*70) during extraction; both are monotonically
non-decreasing in k and p, and the value at upload completion (k = n) equals
the value at extraction start (p = 0), both 30. -/
theorem progress_composition (n k k' : Nat) (p p' : ℚ) (hn : 0 < n)
    (hk : k ≤ k') (hp : p ≤ p') :
    uploadProgressPct k n ≤ uploadProgressPct k' n
    ∧ extractProgressPct p ≤ extractProgressPct p'
    ∧ uploadProgressPct n n = 30
    ∧ extractProgressPct 0 = 30 := by
  have hnq : (0 : ℚ) < (n : ℚ) := by exact_mod_cast hn
  refine ⟨?_, ?_, ?_, ?_⟩
  · apply Int.floor_le_floor
    have hkq : (k : ℚ) ≤ (k' : ℚ) := by exact_mod_cast hk
    gcongr
  · apply add_le_add_left
    apply Int.floor_le_floor
    gcongr
  · rw [uploadProgressPct, div_self (ne_of_gt hnq), one_mul, jsRound]
    rw [show (30 : ℚ) + 1 / 2 = ((61 : ℤ) : ℚ) / ((2 : ℕ) : ℚ) by norm_num]
    rw [Rat.floor_intCast_div_natCast 61 2]
    decide
  · rw [extractProgressPct, jsRound]
    norm_num

/-- Witness for C3 at n = 5, k = 1 to 3, p = 10 to 70. -/
theorem progress_composition_witness :
    uploadProgressPct 1 5 ≤ uploadProgressPct 3 5
    ∧ extractProgressPct 10 ≤ extractProgressPct 70
    ∧ uploadProgressPct 5 5 = 30
    ∧ extractProgressPct 0 = 30 :=
  progress_composition 5 1 3 10 70 (by norm_num) (by norm_num) (by norm_num)

set_option maxRecDepth 40000 in
/-- C4: the abort signal is never consulted.  `handleExtractNetOps` takes the
abort-state function as an argument, but the source never passes
`controller.signal` to any fetch and never checks it, so the network
operations issued are identical for every abort behavior; in particular, for
a 150-file async run whose signal is already set before the first operation,
both chunk uploads, the async extraction call and both poll ticks are still
issued, contradicting the claim that no further network operation is issued
after abort. -/
theorem handleExtract_ignores_abort :
    (∀ (ab ab' : Nat → Bool) (resp : Nat → UploadResp) (files : List Nat)
        (sf : List String) (mode : ProcessingMode) (sts : List JobStatus),
        handleExtractNetOps ab resp files sf mode sts
          = handleExtractNetOps ab' resp files sf mode sts)
    ∧ handleExtractNetOps (fun _ => true) (fun _ => ⟨true, "b", 0⟩)
        (List.range 150) ["field"] .auto
        [⟨"processing", none, some 10, some 150, some 7⟩,
         ⟨"completed", none, some 150, some 150, some 100⟩]
        = [.uploadCall, .uploadCall, .extractAsyncCall, .pollTick, .pollTick] := by
  constructor
  · intro ab ab' resp files sf mode sts
    rfl
  · decide

/-- C7: `shouldUseAsync` is a pure function of image count and processing
mode: "sync" always gives false, "async" always gives true, and "auto" gives
false exactly when the count is at most the configured synchronous ceiling,
which defaults to 0, so auto mode selects asynchronous for every positive
image count. -/
theorem shouldUseAsync_spec (c : Nat) :
    shouldUseAsync c .sync = false
    ∧ shouldUseAsync c .async = true
    ∧ (shouldUseAsync c .auto = false ↔ c ≤ LIMITS.syncMax)
    ∧ LIMITS.syncMax = 0
    ∧ (0 < c → shouldUseAsync c .auto = true) := by
  refine ⟨rfl, rfl, ?_, rfl, ?_⟩
  · simp [shouldUseAsync, LIMITS]
  · intro h
    simp only [shouldUseAsync, LIMITS, decide_eq_true_eq]
    omega

/-- Witness for C7 at count 5: auto mode selects asynchronous. -/
theorem shouldUseAsync_spec_witness : shouldUseAsync 5 .auto = true :=
  (shouldUseAsync_spec 5).2.2.2.2 (by norm_num)

/-- C8: `getJobStatus` returns the bare "not_found" status object exactly
when a non-2xx response has HTTP code 404; any other non-2xx response
throws; a 2xx response returns the parsed body unchanged. -/
theorem getJobStatus_not_found_translation (r : HttpResponse) :
    (r.ok = false →
        (getJobStatus r = .ok ⟨"not_found", none, none, none, none⟩
          ↔ r.statusCode = 404))
    ∧ (r.ok = false → r.statusCode ≠ 404 →
        getJobStatus r = .error "Failed to get job status")
    ∧ (r.ok = true → getJobStatus r = .ok r.body) := by
  refine ⟨?_, ?_, ?_⟩
  · intro hok
    by_cases h404 : r.statusCode = 404
    · simp [getJobStatus, hok, h404]
    · simp [getJobStatus, hok, h404]
  · intro hok h404
    simp [getJobStatus, hok, h404]
  · intro hok
    simp [getJobStatus, hok]

/-- Witness for C8: a 404 response is translated, a 500 response throws, a
2xx response is passed through. -/
theorem getJobStatus_not_found_translation_witness :
    getJobStatus ⟨false, 404, ⟨"queued", none, none, none, none⟩⟩
      = .ok ⟨"not_found", none, none, none, none⟩
    ∧ getJobStatus ⟨false, 500, ⟨"queued", none, none, none, none⟩⟩
      = .error "Failed to get job status"
    ∧ getJobStatus ⟨true, 200, ⟨"queued", none, none, none, none⟩⟩
      = .ok ⟨"queued", none, none, none, none⟩ := by
  refine ⟨?_, ?_, ?_⟩
  · exact ((getJobStatus_not_found_translation
      ⟨false, 404, ⟨"queued", none, none, none, none⟩⟩).1 rfl).mpr rfl
  · exact (getJobStatus_not_found_translation
      ⟨false, 500, ⟨"queued", none, none, none, none⟩⟩).2.1 rfl (by norm_num)
  · exact (getJobStatus_not_found_translation
      ⟨true, 200, ⟨"queued", none, none, none, none⟩⟩).2.2 rfl

/-- C9: no extraction request is issued with an empty schema.  An empty file
list, or a field list whose entries all trim to the empty string, makes
`handleExtract` report an error and perform no network operation at all; and
when it does proceed, the schema object sent maps each distinct trimmed
non-empty field name (and nothing else) to null, with no duplicate keys and
at least one key. -/
theorem handleExtract_schema_guard (files : List α) (schemaFields : List String) :
    (files = [] →
        handleExtractGuard files schemaFields
            = .earlyError "Please upload at least one image"
        ∧ ∀ (ab : Nat → Bool) (resp : Nat → UploadResp) (mode : ProcessingMode)
            (sts : List JobStatus),
            handleExtractNetOps ab resp files schemaFields mode sts = [])
    ∧ (files ≠ [] → (∀ f ∈ schemaFields, jsTrim f = "") →
        handleExtractGuard files schemaFields
            = .earlyError "Please define at least one field to extract"
        ∧ ∀ (ab : Nat → Bool) (resp : Nat → UploadResp) (mode : ProcessingMode)
            (sts : List JobStatus),
            handleExtractNetOps ab resp files schemaFields mode sts = [])
    ∧ (files ≠ [] → (∃ f ∈ schemaFields, jsTrim f ≠ "") →
        handleExtractGuard files schemaFields = .proceed (buildSchema schemaFields)
        ∧ ((buildSchema schemaFields).map Prod.fst).Nodup
        ∧ (∀ k, k ∈ (buildSchema schemaFields).map Prod.fst ↔
            (k ≠ "" ∧ ∃ f ∈ schemaFields, jsTrim f = k))
        ∧ (∀ q ∈ buildSchema schemaFields, q.2 = none)
        ∧ 1 ≤ (buildSchema schemaFields).length) := by
  refine ⟨?_, ?_, ?_⟩
  · intro hf
    have hguard : handleExtractGuard files schemaFields
        = .earlyError "Please upload at least one image" := by
      rw [handleExtractGuard, if_pos (by rw [hf]; rfl)]
    refine ⟨hguard, ?_⟩
    intro ab resp mode sts
    rw [handleExtractNetOps, hguard]
  · intro hf hall
    have hfilter : (schemaFields.filter (fun f => jsTrim f ≠ "")).length = 0 := by
      rw [List.length_eq_zero, List.filter_eq_nil_iff]
      intro f hfmem
      simp [hall f hfmem]
    have hguard : handleExtractGuard files schemaFields
        = .earlyError "Please define at least one field to extract" := by
      rw [handleExtractGuard,
        if_neg (by simpa [List.length_eq_zero] using hf), if_pos hfilter]
    refine ⟨hguard, ?_⟩
    intro ab resp mode sts
    rw [handleExtractNetOps, hguard]
  · intro hf hex
    obtain ⟨f0, hf0mem, hf0⟩ := hex
    have hfilter : (schemaFields.filter (fun f => jsTrim f ≠ "")).length ≠ 0 := by
      rw [Ne, List.length_eq_zero, List.filter_eq_nil_iff]
      push_neg
      exact ⟨f0, hf0mem, by simpa using hf0⟩
    have hguard : handleExtractGuard files schemaFields
        = .proceed (buildSchema schemaFields) := by
      rw [handleExtractGuard,
        if_neg (by simpa [List.length_eq_zero] using hf), if_neg hfilter]
    have hmem : ∀ k, k ∈ (buildSchema schemaFields).map Prod.fst ↔
        (k ≠ "" ∧ ∃ f ∈ schemaFields, jsTrim f = k) := by
      intro k
      have := buildSchemaLoop_mem_keys schemaFields [] k
      simpa [buildSchema] using this
    refine ⟨hguard, ?_, hmem, ?_, ?_⟩
    · exact buildSchemaLoop_nodup_keys schemaFields [] (by simp)
    · exact buildSchemaLoop_values schemaFields [] (by simp)
    · have hkey : jsTrim f0 ∈ (buildSchema schemaFields).map Prod.fst :=
        (hmem (jsTrim f0)).mpr ⟨hf0, f0, hf0mem, rfl⟩
      have : (buildSchema schemaFields).map Prod.fst ≠ [] :=
        List.ne_nil_of_mem hkey
      have hlen : (buildSchema schemaFields).length ≠ 0 := by
        intro h0
        rw [List.length_eq_zero.mp h0] at this
        exact this rfl
      omega

/-- Witness for C9: files present and one effective field name "name" (with
whitespace and a duplicate) give a one-key schema mapping "name" to null;
an all-blank field list gives the early error. -/
theorem handleExtract_schema_guard_witness :
    handleExtractGuard ([7] : List Nat) ["  name  ", "name", ""]
        = .proceed [("name", none)]
    ∧ handleExtractGuard ([7] : List Nat) [" ", ""]
        = .earlyError "Please define at least one field to extract" := by
  have h := handleExtract_schema_guard ([7] : List Nat) ["  name  ", "name", ""]
  have h2 := handleExtract_schema_guard ([7] : List Nat) [" ", ""]
  refine ⟨?_, ?_⟩
  · have h3 := (h.2.2 (by decide) ⟨"  name  ", by simp, by decide⟩).1
    rw [h3]
    decide
  · exact (h2.2.1 (by decide) (by intro f hf; fin_cases hf <;> decide)).1

/-- C10 as stated is false for an empty segment between the first and second
colon: polling the status "error::late" rejects with errorType "unknown",
not with the empty segment "" that sits between the first and second colon,
because the JavaScript `|| "unknown"` fallback also replaces the empty
(falsy) segment. -/
theorem extractErrorType_empty_segment_counterexample :
    (pollJobStatus 2000 [⟨"error::late", none, none, none, none⟩]).result
      = .rejectedError "unknown" "An unexpected error occurred during extraction."
    ∧ ("unknown" : String) ≠ ("" : String) := by
  exact ⟨by decide, by decide⟩

/-- C10 (amended): error-kind extraction and classification are total: the
bare status "error" with no colon yields errorType "unknown"; for a status
with multiple colons only the segment between the first and second colon is
taken as the kind when that segment is non-empty, while an empty segment
also falls back to "unknown"; any kind absent from the five-entry message
table maps to the "unknown" default message; and every status beginning
with "error" rejects with a defined, non-empty user-facing message. -/
theorem extractErrorType_totality :
    extractErrorType "error" = "unknown"
    ∧ (∀ kind rest : String, ':' ∉ kind.data →
        extractErrorType ("error:" ++ kind ++ ":" ++ rest)
          = if kind = "" then "unknown" else kind)
    ∧ (∀ kind : String, ':' ∉ kind.data →
        extractErrorType ("error:" ++ kind)
          = if kind = "" then "unknown" else kind)
    ∧ (∀ et : String, et ≠ "rate_limit" → et ≠ "insufficient_credits" →
        et ≠ "invalid_key" → et ≠ "no_valid_data" →
        getDefaultErrorMessage et = "An unexpected error occurred during extraction.")
    ∧ (∀ st : JobStatus, strStartsWith st.status "error" = true →
        (pollJobStatus 2000 [st]).result
            = .rejectedError (extractErrorType st.status)
                (jsOrElse st.error_message
                  (getDefaultErrorMessage (extractErrorType st.status)))
          ∧ jsOrElse st.error_message
              (getDefaultErrorMessage (extractErrorType st.status)) ≠ "") := by
  refine ⟨by decide, extractErrorType_error_kind_rest, extractErrorType_error_kind,
    ?_, ?_⟩
  · intro et h1 h2 h3 h4
    rw [getDefaultErrorMessage, if_neg h1, if_neg h2, if_neg h3, if_neg h4]
  · intro st he
    have hc := status_error_ne_completed st.status he
    constructor
    · rw [pollJobStatus]
      simp [hc, he]
    · cases hm : st.error_message with
      | none => exact getDefaultErrorMessage_ne_empty _
      | some m =>
        show (if m = "" then getDefaultErrorMessage (extractErrorType st.status)
            else m) ≠ ""
        by_cases hme : m = ""
        · rw [if_pos hme]
          exact getDefaultErrorMessage_ne_empty _
        · rw [if_neg hme]
          exact hme

/-- Witness for the amended C10: the status "error:bad:detail" yields kind
"bad" with the unknown-kind default message, and the bare status "error"
yields "unknown". -/
theorem extractErrorType_totality_witness :
    extractErrorType "error:bad:detail" = "bad"
    ∧ getDefaultErrorMessage "bad" = "An unexpected error occurred during extraction."
    ∧ extractErrorType "error" = "unknown" := by
  have h := extractErrorType_totality
  refine ⟨?_, ?_, h.1⟩
  · have h2 := h.2.1 "bad" "detail" (by decide)
    rw [show ("error:" ++ "bad" ++ ":" ++ "detail" : String) = "error:bad:detail"
      by decide] at h2
    rw [h2]
    decide
  · exact h.2.2.2.1 "bad" (by decide) (by decide) (by decide) (by decide)
